import Mathlib

/-!
Verification development for the user-database CRUD console program
(`upgraded_datascience.py`).  The program maintains a single SQLite table
`users(id, name, age, iq, bench_press)` and offers create / read-all /
update-single-field / delete-by-id operations plus simple statistics and a
scatter-plot export with collision-free file naming.

Shallow embedding conventions:
* the table is a `List User` in storage (insertion) order, together with the
  AUTOINCREMENT counter `nextId`;
* operator console input is a `List String` of the successive `input()`
  results; exhausting the list models `EOFError`, which the program's generic
  `except Exception` handlers turn into rollback-and-abort;
* Python `int(...)` on an input string is modelled by `pyInt`
  (trim, then parse an optional sign and digits);
* console output (prompts and messages) is returned as a `List String` trace
  where a claim is about re-prompting behaviour;
* a read failure of `pd.read_sql_query` is modelled by a boolean `fail` flag
  on `read_db`, whose handler converts any failure into an empty result;
* each retry loop is embedded as a non-recursive single-iteration step
  function plus a loop that iterates it, recursing on the unconsumed input.
-/

/-- One row of the `users` table. -/
structure User where
  id : Nat
  name : String
  age : Int
  iq : Int
  bench_press : Int
  deriving Repr, DecidableEq

/-- The database state: the `users` table rows in storage (rowid) order plus
the AUTOINCREMENT counter (the next id to be assigned). -/
structure DB where
  table : List User
  nextId : Nat
  deriving Repr, DecidableEq

/-- Python `str.strip()`: remove leading and trailing whitespace
(working over the character list keeps every definition kernel-computable). -/
def pyStrip (s : String) : String :=
  String.mk (((s.data.dropWhile Char.isWhitespace).reverse.dropWhile
      Char.isWhitespace).reverse)

/-- Python `str.lower()` (ASCII case folding suffices here). -/
def pyLower (s : String) : String :=
  String.mk (s.data.map Char.toLower)

/-- Value of a nonempty all-digit character run. -/
def digitsToNat (l : List Char) : Option Nat :=
  l.foldl
    (fun acc c =>
      match acc with
      | some a => if c.isDigit then some (a * 10 + (c.toNat - 48)) else none
      | none => none)
    (some 0)

/-- Decimal integer literal: optional sign, then a nonempty digit run
(digit-group underscores, accepted by CPython, are not modelled). -/
def pyIntChars : List Char → Option Int
  | [] => none
  | c :: ds =>
    if c = '-' then
      if ds = [] then none else (digitsToNat ds).map (fun n => -(n : Int))
    else if c = '+' then
      if ds = [] then none else (digitsToNat ds).map (fun n => (n : Int))
    else (digitsToNat (c :: ds)).map (fun n => (n : Int))

/-- Python `int(s)` on the result of `input()`: strip surrounding whitespace,
then parse an optionally signed decimal integer; `none` models `ValueError`. -/
def pyInt (s : String) : Option Int :=
  pyIntChars ((s.data.dropWhile Char.isWhitespace).reverse.dropWhile
      Char.isWhitespace).reverse

/-- The schema's row constraints: `age > 0`, `iq > 0`, `bench_press >= 0`
(`CHECK` clauses) and `name` non-empty (enforced by input validation; the
schema itself only has `NOT NULL` on `name`). -/
def validUser (u : User) : Prop :=
  0 < u.age ∧ 0 < u.iq ∧ 0 ≤ u.bench_press ∧ u.name ≠ ""

instance (u : User) : Decidable (validUser u) := by
  unfold validUser; infer_instance

/-- The `INSERT INTO users (name, age, iq, bench_press) VALUES (?, ?, ?, ?)`
statement.  The storage engine checks the `CHECK` constraints; a violation
raises `IntegrityError`, modelled by `none`.  On success the row receives the
next AUTOINCREMENT id. -/
def insertStmt (db : DB) (nm : String) (age iq bench : Int) : Option DB :=
  if 0 < age ∧ 0 < iq ∧ 0 ≤ bench then
    some { table := db.table ++ [⟨db.nextId, nm, age, iq, bench⟩],
           nextId := db.nextId + 1 }
  else none

/-- Embeds `initialize_database`: `CREATE TABLE IF NOT EXISTS users (...)` — creates
an empty table when absent, leaves an existing table (and its rows) untouched.
`none` models the absence of the table. -/
def init_database : Option DB → Option DB
  | none => some { table := [], nextId := 1 }
  | some db => some db

/-- Embeds `read_db`: `SELECT * FROM users` via pandas.  On success it returns all
rows in storage order; any read failure (`fail = true`) is caught, reported to
the console, and converted to an empty result — never propagated. -/
def read_db (fail : Bool) (db : DB) : List User :=
  if fail then [] else db.table

/-! ## Create (`add_new_user`) -/

/-- Outcome of one iteration of the create loop's prompt sequence. -/
inductive AddStep where
  | ok (nm : String) (age iq bench : Int) (rest : List String)
  | invalid (rest : List String)
  | eof
  deriving Repr, DecidableEq

/-- One pass of the create loop's prompts: name, age, IQ, bench press, each
validated in turn.  A `ValueError` (failed parse or out-of-range value) yields
`invalid` with the unconsumed input; exhausted input yields `eof`
(`EOFError`). -/
def readNewUser : List String → AddStep
  | [] => .eof
  | nameStr :: rest =>
    if pyStrip nameStr = "" then .invalid rest
    else
      match rest with
      | [] => .eof
      | ageStr :: rest2 =>
        match pyInt ageStr with
        | none => .invalid rest2
        | some age =>
          if age ≤ 0 then .invalid rest2
          else
            match rest2 with
            | [] => .eof
            | iqStr :: rest3 =>
              match pyInt iqStr with
              | none => .invalid rest3
              | some iq =>
                if iq ≤ 0 then .invalid rest3
                else
                  match rest3 with
                  | [] => .eof
                  | bStr :: rest4 =>
                    match pyInt bStr with
                    | none => .invalid rest4
                    | some bench =>
                      if bench < 0 then .invalid rest4
                      else .ok (pyStrip nameStr) age iq bench rest4

theorem readNewUser_invalid_length {inputs rest : List String}
    (h : readNewUser inputs = .invalid rest) : rest.length < inputs.length := by
  unfold readNewUser at h
  split at h
  · exact absurd h (by simp)
  · split at h
    · cases h; simp
    · split at h
      · exact absurd h (by simp)
      · split at h
        · cases h; simp; omega
        · split at h
          · cases h; simp; omega
          · split at h
            · exact absurd h (by simp)
            · split at h
              · cases h; simp; omega
              · split at h
                · cases h; simp; omega
                · split at h
                  · exact absurd h (by simp)
                  · split at h
                    · cases h; simp; omega
                    · split at h
                      · cases h; simp; omega
                      · exact absurd h (by simp)

theorem readNewUser_ok {inputs rest : List String} {nm : String} {age iq bench : Int}
    (h : readNewUser inputs = .ok nm age iq bench rest) :
    0 < age ∧ 0 < iq ∧ 0 ≤ bench ∧ nm ≠ "" := by
  unfold readNewUser at h
  split at h
  · exact absurd h (by simp)
  · split at h
    · exact absurd h (by simp)
    · split at h
      · exact absurd h (by simp)
      · split at h
        · exact absurd h (by simp)
        · split at h
          · exact absurd h (by simp)
          · split at h
            · exact absurd h (by simp)
            · split at h
              · exact absurd h (by simp)
              · split at h
                · exact absurd h (by simp)
                · split at h
                  · exact absurd h (by simp)
                  · split at h
                    · exact absurd h (by simp)
                    · split at h
                      · exact absurd h (by simp)
                      · cases h
                        exact ⟨by omega, by omega, by omega, by assumption⟩

/-- Embeds `add_new_user`: the retry loop.  A validation failure restarts the whole
record from the name prompt; `EOFError` hits the generic `except Exception`
handler, which rolls back and breaks; on success the insert statement runs
and is committed (an `IntegrityError` from the storage constraints would also
hit the generic handler, rolling back). -/
def add_new_user (db : DB) (inputs : List String) : DB :=
  match inputs with
  | [] => db
  | s :: rest =>
    match h : readNewUser (s :: rest) with
    | .ok nm age iq bench _ =>
      match insertStmt db nm age iq bench with
      | some db2 => db2
      | none => db
    | .invalid rest2 => add_new_user db rest2
    | .eof => db
termination_by inputs.length
decreasing_by
  simp only [List.length_cons]
  have := readNewUser_invalid_length h
  simpa using this

theorem add_new_user_nil (db : DB) : add_new_user db [] = db := by
  rw [add_new_user]

theorem add_new_user_cons_ok {s : String} {rest rest4 : List String} {nm : String}
    {age iq bench : Int} (db : DB)
    (h : readNewUser (s :: rest) = .ok nm age iq bench rest4) :
    add_new_user db (s :: rest) =
      match insertStmt db nm age iq bench with
      | some db2 => db2
      | none => db := by
  rw [add_new_user]
  split
  · rename_i heq
    rw [h] at heq
    cases heq
    rfl
  · rename_i heq
    rw [h] at heq
    cases heq
  · rename_i heq
    rw [h] at heq
    cases heq

theorem add_new_user_cons_invalid {s : String} {rest rest2 : List String} (db : DB)
    (h : readNewUser (s :: rest) = .invalid rest2) :
    add_new_user db (s :: rest) = add_new_user db rest2 := by
  rw [add_new_user]
  split
  · rename_i heq
    rw [h] at heq
    cases heq
  · rename_i heq
    rw [h] at heq
    cases heq
    rfl
  · rename_i heq
    rw [h] at heq
    cases heq

theorem add_new_user_cons_eof {s : String} {rest : List String} (db : DB)
    (h : readNewUser (s :: rest) = .eof) :
    add_new_user db (s :: rest) = db := by
  rw [add_new_user]
  split
  · rename_i heq
    rw [h] at heq
    cases heq
  · rename_i heq
    rw [h] at heq
    cases heq
  · rfl

/-- C1: every create either leaves the table unchanged (all attempts were
rejected by input validation, or input was exhausted) or appends exactly one
row, and that row satisfies `age > 0 ∧ iq > 0 ∧ bench_press ≥ 0 ∧ name ≠ ""`;
no insert statement ever reaches storage with an invalid row, so every row
ever stored satisfies the invariant. -/
theorem add_new_user_invariant (db : DB) (inputs : List String) :
    (add_new_user db inputs).table = db.table ∨
    ∃ u : User, validUser u ∧ (add_new_user db inputs).table = db.table ++ [u] := by
  induction inputs using add_new_user.induct db with
  | case1 => left; rw [add_new_user_nil]
  | case2 s rest nm age iq bench rest4 h db2 hins =>
    right
    refine ⟨⟨db.nextId, nm, age, iq, bench⟩, ?_, ?_⟩
    · have := readNewUser_ok h
      exact ⟨this.1, this.2.1, this.2.2.1, this.2.2.2⟩
    · rw [add_new_user_cons_ok db h, hins]
      unfold insertStmt at hins
      split at hins
      · simp only [Option.some.injEq] at hins
        rw [← hins]
      · exact absurd hins (by simp)
  | case3 s rest nm age iq bench rest4 h hins =>
    have hv := readNewUser_ok h
    unfold insertStmt at hins
    split at hins
    · exact absurd hins (by simp)
    · rename_i hcon
      exact absurd ⟨hv.1, hv.2.1, hv.2.2.1⟩ hcon
  | case4 s rest rest2 h ih =>
    rw [add_new_user_cons_invalid db h]
    exact ih
  | case5 s rest h =>
    left
    rw [add_new_user_cons_eof db h]

/-! ## Delete (`delete_user`) -/

/-- Console messages of the delete flow (`input()` prompts and `print`s). -/
def msgDelPrompt : String := "Enter user id to delete: "

def msgNoUser : String := "User with this ID does not exist. Please try again"

def msgDeleted : String := "User was deleted from DataBase"

def msgBadId : String := "Invalid input: Please enter a valid ID (number)."

def msgDelErr : String := "Error deleting user: EOF when reading a line"

def msgEmptyDel : String := "Database is empty. Nothing to delete."

def msgListing : String := "Current users:"

/-- The `SELECT COUNT(*) FROM users WHERE id=?` existence check for an operator-typed integer. -/
def countId (db : DB) (x : Int) : Nat :=
  (db.table.filter (fun u => (u.id : Int) == x)).length

/-- The `DELETE FROM users WHERE id=?` statement. -/
def deleteStmt (db : DB) (x : Int) : DB :=
  { db with table := db.table.filter (fun u => !((u.id : Int) == x)) }

/-- Outcome of one iteration of a retry loop: `done` commits and breaks
(unread input is discarded), `retry` continues with the unconsumed input and
an unchanged database, `halt` breaks out after the generic error handler. -/
inductive LoopStep where
  | done (db2 : DB) (out : List String)
  | retry (out : List String) (rest : List String)
  | halt (out : List String)
  deriving Repr, DecidableEq

/-- One iteration of the delete retry loop: prompt for an id; a `ValueError`
re-prompts, an id matching no row re-prompts, a match executes the delete
statement and commits; `EOFError` hits the generic handler and breaks. -/
def delete_step (db : DB) : List String → LoopStep
  | [] => .halt [msgDelPrompt, msgDelErr]
  | s :: rest =>
    match pyInt s with
    | none => .retry [msgDelPrompt, msgBadId] rest
    | some x =>
      if countId db x = 0 then .retry [msgDelPrompt, msgNoUser] rest
      else .done (deleteStmt db x) [msgDelPrompt, msgDeleted]

theorem delete_step_retry_length {db : DB} {inputs out rest : List String}
    (h : delete_step db inputs = .retry out rest) : rest.length < inputs.length := by
  unfold delete_step at h
  split at h
  · cases h
  · split at h
    · cases h; simp
    · split at h
      · cases h; simp
      · cases h

/-- The `while True` retry loop of `delete_user`. -/
def delete_loop (db : DB) (inputs : List String) : DB × List String :=
  match h : delete_step db inputs with
  | .done db2 out => (db2, out)
  | .retry out rest => ((delete_loop db rest).1, out ++ (delete_loop db rest).2)
  | .halt out => (db, out)
termination_by inputs.length
decreasing_by
  exact delete_step_retry_length h

theorem delete_loop_eq (db : DB) (inputs : List String) :
    delete_loop db inputs =
      match delete_step db inputs with
      | .done db2 out => (db2, out)
      | .retry out rest => ((delete_loop db rest).1, out ++ (delete_loop db rest).2)
      | .halt out => (db, out) := by
  rw [delete_loop]
  split
  · rename_i heq
    rw [heq]
  · rename_i heq
    rw [heq]
  · rename_i heq
    rw [heq]

/-- Embeds `delete_user`: shows the current table (via `read_db`), reports and exits
when it is empty, otherwise runs the id retry loop. -/
def delete_user (fail : Bool) (db : DB) (inputs : List String) : DB × List String :=
  if (read_db fail db).isEmpty then (db, [msgEmptyDel])
  else
    ((delete_loop db inputs).1, msgListing :: (delete_loop db inputs).2)

/-- Every iteration of the delete loop starts by printing the id prompt. -/
theorem delete_loop_head (db : DB) (inputs : List String) :
    (delete_loop db inputs).2.head? = some msgDelPrompt := by
  cases inputs with
  | nil =>
    rw [delete_loop_eq]
    rfl
  | cons s rest =>
    rw [delete_loop_eq]
    unfold delete_step
    cases hp : pyInt s with
    | none => simp [hp]
    | some x =>
      by_cases hc : countId db x = 0
      · simp [hp, hc]
      · simp [hp, hc]

/-- With unique ids, deleting a present id drops exactly one row. -/
theorem length_filter_not_id (x : Int) (l : List User)
    (hnd : (l.map User.id).Nodup) (hmem : ∃ u ∈ l, (u.id : Int) = x) :
    (l.filter (fun u => !((u.id : Int) == x))).length + 1 = l.length := by
  induction l with
  | nil => simp at hmem
  | cons u t ih =>
    simp only [List.map_cons, List.nodup_cons] at hnd
    by_cases hx : (u.id : Int) = x
    · have hfilter : t.filter (fun v => !((v.id : Int) == x)) = t := by
        apply List.filter_eq_self.mpr
        intro v hv
        simp only [Bool.not_eq_eq_eq_not, Bool.not_true, beq_eq_false_iff_ne, ne_eq]
        intro hvx
        have hvu : v.id = u.id := by
          have : (v.id : Int) = (u.id : Int) := by rw [hvx, hx]
          exact_mod_cast this
        exact hnd.1 (by rw [← hvu]; exact List.mem_map_of_mem User.id hv)
      have hpu : (fun v : User => !((v.id : Int) == x)) u = false := by
        simp [hx]
      simp [List.filter_cons, hpu, hfilter]
    · have hpu : (fun v : User => !((v.id : Int) == x)) u = true := by
        simp [hx]
      have hmem2 : ∃ v ∈ t, (v.id : Int) = x := by
        obtain ⟨v, hv, hvx⟩ := hmem
        rcases List.mem_cons.mp hv with hv | hv
        · exact absurd (hv ▸ hvx) hx
        · exact ⟨v, hv, hvx⟩
      simp only [List.filter_cons, hpu, if_true, List.length_cons]
      rw [ih hnd.2 hmem2]

theorem countId_ne_zero {db : DB} {x : Int} (hmem : ∃ u ∈ db.table, (u.id : Int) = x) :
    countId db x ≠ 0 := by
  obtain ⟨u, hu, hux⟩ := hmem
  unfold countId
  have : u ∈ db.table.filter (fun v => (v.id : Int) == x) :=
    List.mem_filter.mpr ⟨hu, by simp [hux]⟩
  intro hlen
  rw [List.length_eq_zero] at hlen
  rw [hlen] at this
  cases this

/-- C3: when the entered id matches a row (with primary-key-unique ids), the
delete operation removes exactly that one row: the row count drops by one, a
subsequent read-all never contains the id, every other row is unchanged, and
no new rows appear. -/
theorem delete_user_removes_one (db : DB) (idStr : String) (rest : List String) (x : Int)
    (hnd : (db.table.map User.id).Nodup)
    (hp : pyInt idStr = some x)
    (hmem : ∃ u ∈ db.table, (u.id : Int) = x) :
    (delete_user false db (idStr :: rest)).1.table
        = db.table.filter (fun u => !((u.id : Int) == x)) ∧
    (delete_user false db (idStr :: rest)).1.table.length + 1 = db.table.length ∧
    (∀ u ∈ read_db false (delete_user false db (idStr :: rest)).1, (u.id : Int) ≠ x) ∧
    (∀ u ∈ db.table, (u.id : Int) ≠ x →
        u ∈ read_db false (delete_user false db (idStr :: rest)).1) ∧
    (∀ u ∈ read_db false (delete_user false db (idStr :: rest)).1, u ∈ db.table) := by
  have hne : db.table ≠ [] := by
    obtain ⟨u, hu, _⟩ := hmem
    intro hnil
    rw [hnil] at hu
    cases hu
  have hcount := countId_ne_zero hmem
  have hstep : delete_step db (idStr :: rest) = .done (deleteStmt db x) [msgDelPrompt, msgDeleted] := by
    unfold delete_step
    simp [hp, hcount]
  have hresult : (delete_user false db (idStr :: rest)).1 = deleteStmt db x := by
    unfold delete_user
    have : (read_db false db).isEmpty = false := by
      simp [read_db, List.isEmpty_iff, hne]
    rw [this]
    simp only [Bool.false_eq_true, if_false]
    rw [delete_loop_eq, hstep]
  rw [hresult]
  unfold deleteStmt read_db
  refine ⟨rfl, ?_, ?_, ?_, ?_⟩
  · exact length_filter_not_id x db.table hnd hmem
  · intro u hu
    simp only [if_false, Bool.false_eq_true] at hu
    have := (List.mem_filter.mp hu).2
    simpa using this
  · intro u hu hux
    simp only [if_false, Bool.false_eq_true]
    exact List.mem_filter.mpr ⟨hu, by simpa using hux⟩
  · intro u hu
    simp only [if_false, Bool.false_eq_true] at hu
    exact (List.mem_filter.mp hu).1

/-- C3 witness: deleting id 1 from the two-row table removes exactly the row
with id 1 and keeps the other row. -/
theorem delete_user_removes_one_witness :
    (delete_user false ⟨[⟨1, "Ann_Lee", 30, 110, 60⟩, ⟨2, "Bo_Li", 25, 120, 80⟩], 3⟩
          ["1"]).1.table.length + 1 = 2 :=
  (delete_user_removes_one
    ⟨[⟨1, "Ann_Lee", 30, 110, 60⟩, ⟨2, "Bo_Li", 25, 120, 80⟩], 3⟩ "1" [] 1
    (by decide) (by decide) ⟨⟨1, "Ann_Lee", 30, 110, 60⟩, by decide, by decide⟩).2.1

/-- C10: when the entered id matches no row, the delete loop executes no
delete statement and commits nothing: the continuation runs on the unchanged
database and begins by re-prompting for the id. -/
theorem delete_user_notfound (db : DB) (idStr : String) (rest : List String) (x : Int)
    (hp : pyInt idStr = some x)
    (hc : countId db x = 0)
    (hne : db.table ≠ []) :
    delete_user false db (idStr :: rest)
        = ((delete_loop db rest).1,
           msgListing :: msgDelPrompt :: msgNoUser :: (delete_loop db rest).2) ∧
    (delete_loop db rest).2.head? = some msgDelPrompt := by
  have hstep : delete_step db (idStr :: rest) = .retry [msgDelPrompt, msgNoUser] rest := by
    unfold delete_step
    simp [hp, hc]
  constructor
  · unfold delete_user
    have : (read_db false db).isEmpty = false := by
      simp [read_db, List.isEmpty_iff, hne]
    rw [this]
    simp only [Bool.false_eq_true, if_false]
    rw [delete_loop_eq, hstep]
    rfl
  · exact delete_loop_head db rest

/-- C10 witness: id 2 is absent, so the lone row survives the attempt and the
loop re-prompts. -/
theorem delete_user_notfound_witness :
    delete_user false ⟨[⟨1, "Ann_Lee", 30, 110, 60⟩], 2⟩ ["2"]
        = ((delete_loop ⟨[⟨1, "Ann_Lee", 30, 110, 60⟩], 2⟩ []).1,
           msgListing :: msgDelPrompt :: msgNoUser
             :: (delete_loop ⟨[⟨1, "Ann_Lee", 30, 110, 60⟩], 2⟩ []).2) :=
  (delete_user_notfound ⟨[⟨1, "Ann_Lee", 30, 110, 60⟩], 2⟩ "2" [] 2
    (by decide) (by decide) (by decide)).1

/-! ## Update (`update_user`) -/

def msgUpdPrompt : String := "Enter user id to update: "

def msgBadNum : String := "Invalid input: Please enter a number."

def msgBenchNeg : String := "Bench press cannot be negative."

def msgIqPos : String := "IQ must be a positive number."

def msgAgePos : String := "Age must be a positive number."

def msgNameEmpty : String := "Name cannot be empty."

def msgBenchOk : String := "Bench press was updated"

def msgIqOk : String := "IQ was updated"

def msgAgeOk : String := "Age was updated"

def msgNameOk : String := "Name was updated"

def msgBadChoice : String := "Invalid choice. Please enter 1, 2, 3, or 4."

def msgUpdErr : String := "Error updating user: EOF when reading a line"

def msgEmptyUpd : String := "Database is empty. Nothing to update."

/-- The field-selection menu printed after a valid id, ending with the
`Choose an option (1-4): ` input prompt. -/
def updMenu : List String :=
  ["What do you want to update?", "1. Bench press", "2. IQ", "3. Age",
   "4. Name", "Choose an option (1-4): "]

/-- The four updatable columns of the 1-4 field menu. -/
inductive Col where
  | bench
  | iq
  | age
  | name
  deriving Repr, DecidableEq

/-- Menu digit typed to select a column. -/
def colChoice : Col → String
  | .bench => "1"
  | .iq => "2"
  | .age => "3"
  | .name => "4"

/-- Prompt printed for the new value of each column. -/
def colPrompt : Col → String
  | .bench => "New bench press (kg): "
  | .iq => "New IQ: "
  | .age => "New age: "
  | .name => "New name: "

/-- The `UPDATE users SET <col> = ? WHERE id = ?` statement. -/
def updateRow (db : DB) (x : Int) (g : User → User) : DB :=
  { db with table := db.table.map (fun u => if (u.id : Int) == x then g u else u) }

/-- The per-column branch of the update loop, after the field menu: prompt
for the new value, validate it against the column's rule, and on success
execute the update statement and commit.  `c` is the stripped menu choice. -/
def field_step (db : DB) (x : Int) (c : String) (rest2 : List String) : LoopStep :=
    if c = "1" then
      match rest2 with
      | [] => .halt [colPrompt .bench, msgUpdErr]
      | v :: rest3 =>
        match pyInt v with
        | none => .retry [colPrompt .bench, msgBadNum] rest3
        | some n =>
          if n < 0 then .retry [colPrompt .bench, msgBenchNeg] rest3
          else .done (updateRow db x (fun u => { u with bench_press := n }))
                 [colPrompt .bench, msgBenchOk]
    else if c = "2" then
      match rest2 with
      | [] => .halt [colPrompt .iq, msgUpdErr]
      | v :: rest3 =>
        match pyInt v with
        | none => .retry [colPrompt .iq, msgBadNum] rest3
        | some n =>
          if n ≤ 0 then .retry [colPrompt .iq, msgIqPos] rest3
          else .done (updateRow db x (fun u => { u with iq := n }))
                 [colPrompt .iq, msgIqOk]
    else if c = "3" then
      match rest2 with
      | [] => .halt [colPrompt .age, msgUpdErr]
      | v :: rest3 =>
        match pyInt v with
        | none => .retry [colPrompt .age, msgBadNum] rest3
        | some n =>
          if n ≤ 0 then .retry [colPrompt .age, msgAgePos] rest3
          else .done (updateRow db x (fun u => { u with age := n }))
                 [colPrompt .age, msgAgeOk]
    else if c = "4" then
      match rest2 with
      | [] => .halt [colPrompt .name, msgUpdErr]
      | v :: rest3 =>
        if pyStrip v = "" then .retry [colPrompt .name, msgNameEmpty] rest3
        else .done (updateRow db x (fun u => { u with name := pyStrip v }))
               [colPrompt .name, msgNameOk]
    else .retry [msgBadChoice] rest2

/-- Prefix already-printed output onto a loop-step outcome. -/
def prependOut (pre : List String) : LoopStep → LoopStep
  | .done db2 out => .done db2 (pre ++ out)
  | .retry out r => .retry (pre ++ out) r
  | .halt out => .halt (pre ++ out)

/-- One iteration of the update `while True` loop: prompt for an id
(`ValueError` or an unmatched id re-prompts), then show the field menu and
run the chosen column's branch; `EOFError` anywhere hits the generic handler
and breaks. -/
def update_step (db : DB) : List String → LoopStep
  | [] => .halt [msgUpdPrompt, msgUpdErr]
  | s :: rest =>
    match pyInt s with
    | none => .retry [msgUpdPrompt, msgBadId] rest
    | some x =>
      if countId db x = 0 then .retry [msgUpdPrompt, msgNoUser] rest
      else
        match rest with
        | [] => .halt (msgUpdPrompt :: updMenu ++ [msgUpdErr])
        | choice :: rest2 =>
          prependOut (msgUpdPrompt :: updMenu) (field_step db x (pyStrip choice) rest2)

theorem field_step_retry_length {db : DB} {x : Int} {c : String} {rest2 out r : List String}
    (h : field_step db x c rest2 = .retry out r) : r.length ≤ rest2.length := by
  unfold field_step at h
  split at h
  · split at h
    · cases h
    · split at h
      · cases h; simp
      · split at h
        · cases h; simp
        · cases h
  · split at h
    · split at h
      · cases h
      · split at h
        · cases h; simp
        · split at h
          · cases h; simp
          · cases h
    · split at h
      · split at h
        · cases h
        · split at h
          · cases h; simp
          · split at h
            · cases h; simp
            · cases h
      · split at h
        · split at h
          · cases h
          · split at h
            · cases h; simp
            · cases h
        · cases h; simp

theorem update_step_retry_length {db : DB} {inputs out rest : List String}
    (h : update_step db inputs = .retry out rest) : rest.length < inputs.length := by
  unfold update_step at h
  split at h
  · cases h
  · rename_i s rest0
    split at h
    · cases h; simp
    · split at h
      · cases h; simp
      · split at h
        · cases h
        · rename_i choice rest2
          unfold prependOut at h
          split at h
          · cases h
          · rename_i heq
            cases h
            have := field_step_retry_length heq
            simp only [List.length_cons]
            omega
          · cases h

/-- The `while True` retry loop of `update_user`. -/
def update_loop (db : DB) (inputs : List String) : DB × List String :=
  match h : update_step db inputs with
  | .done db2 out => (db2, out)
  | .retry out rest => ((update_loop db rest).1, out ++ (update_loop db rest).2)
  | .halt out => (db, out)
termination_by inputs.length
decreasing_by
  exact update_step_retry_length h

theorem update_loop_eq (db : DB) (inputs : List String) :
    update_loop db inputs =
      match update_step db inputs with
      | .done db2 out => (db2, out)
      | .retry out rest => ((update_loop db rest).1, out ++ (update_loop db rest).2)
      | .halt out => (db, out) := by
  rw [update_loop]
  split
  · rename_i heq
    rw [heq]
  · rename_i heq
    rw [heq]
  · rename_i heq
    rw [heq]

theorem update_loop_retry {db : DB} {inputs out rest : List String}
    (h : update_step db inputs = .retry out rest) :
    update_loop db inputs = ((update_loop db rest).1, out ++ (update_loop db rest).2) := by
  rw [update_loop_eq, h]

theorem update_loop_halt {db : DB} {inputs out : List String}
    (h : update_step db inputs = .halt out) :
    update_loop db inputs = (db, out) := by
  rw [update_loop_eq, h]

/-- The console output carried by a loop-step outcome. -/
def stepOut : LoopStep → List String
  | .done _ out => out
  | .retry out _ => out
  | .halt out => out

theorem stepOut_prependOut (pre : List String) (ls : LoopStep) :
    stepOut (prependOut pre ls) = pre ++ stepOut ls := by
  cases ls <;> rfl

/-- Every step outcome of the update loop starts with the id prompt. -/
theorem update_step_head (db : DB) (inputs : List String) :
    (stepOut (update_step db inputs)).head? = some msgUpdPrompt := by
  unfold update_step
  cases inputs with
  | nil => rfl
  | cons s rest =>
    cases hp : pyInt s with
    | none =>
      simp only [hp]
      simp [stepOut]
    | some x =>
      simp only [hp]
      by_cases hc : countId db x = 0
      · rw [if_pos hc]
        simp [stepOut]
      · rw [if_neg hc]
        cases rest with
        | nil => simp [stepOut]
        | cons choice rest2 =>
          change (stepOut (prependOut (msgUpdPrompt :: updMenu)
            (field_step db x (pyStrip choice) rest2))).head? = some msgUpdPrompt
          rw [stepOut_prependOut]
          simp

/-- Every iteration of the update loop starts by printing the id prompt. -/
theorem update_loop_head (db : DB) (inputs : List String) :
    (update_loop db inputs).2.head? = some msgUpdPrompt := by
  rw [update_loop_eq]
  have hh := update_step_head db inputs
  cases h : update_step db inputs with
  | done db2 out =>
    rw [h] at hh
    simpa [stepOut] using hh
  | retry out rest =>
    rw [h] at hh
    simp only [stepOut] at hh
    cases out with
    | nil => simp at hh
    | cons a out2 => simpa using hh
  | halt out =>
    rw [h] at hh
    simpa [stepOut] using hh

/-- Embeds `update_user`: shows the current table (via `read_db`), reports and exits
when it is empty, otherwise runs the id retry loop. -/
def update_user (fail : Bool) (db : DB) (inputs : List String) : DB × List String :=
  if (read_db fail db).isEmpty then (db, [msgEmptyUpd])
  else
    ((update_loop db inputs).1, msgListing :: (update_loop db inputs).2)

/-- Validation rule each column's new value must pass (matching its storage
constraint): bench ≥ 0, iq > 0, age > 0, name non-empty after strip. -/
def colValid : Col → String → Bool
  | .bench, s => match pyInt s with | some v => decide (0 ≤ v) | none => false
  | .iq, s => match pyInt s with | some v => decide (0 < v) | none => false
  | .age, s => match pyInt s with | some v => decide (0 < v) | none => false
  | .name, s => decide (pyStrip s ≠ "")

/-- The row transformation of the column's `UPDATE ... SET` statement. -/
def colApply : Col → String → User → User
  | .bench, s, u => match pyInt s with | some v => { u with bench_press := v } | none => u
  | .iq, s, u => match pyInt s with | some v => { u with iq := v } | none => u
  | .age, s, u => match pyInt s with | some v => { u with age := v } | none => u
  | .name, s, u => { u with name := pyStrip s }

/-- Success message printed after each column's update commits. -/
def colOk : Col → String
  | .bench => msgBenchOk
  | .iq => msgIqOk
  | .age => msgAgeOk
  | .name => msgNameOk

/-- Error message printed for an invalid new value of each column. -/
def colErr : Col → String → String
  | .bench, s => match pyInt s with | none => msgBadNum | some _ => msgBenchNeg
  | .iq, s => match pyInt s with | none => msgBadNum | some _ => msgIqPos
  | .age, s => match pyInt s with | none => msgBadNum | some _ => msgAgePos
  | .name, _ => msgNameEmpty

/-- Row `w` agrees with `u` on every column other than `f` (and on the id). -/
def sameExcept (f : Col) (u w : User) : Prop :=
  w.id = u.id ∧ (f ≠ .name → w.name = u.name) ∧ (f ≠ .age → w.age = u.age) ∧
  (f ≠ .iq → w.iq = u.iq) ∧ (f ≠ .bench → w.bench_press = u.bench_press)

/-- Row `w` holds the new value that the operator entered for column `f`. -/
def setsTo (f : Col) (s : String) (w : User) : Prop :=
  match f with
  | .bench => pyInt s = some w.bench_press
  | .iq => pyInt s = some w.iq
  | .age => pyInt s = some w.age
  | .name => w.name = pyStrip s

theorem countId_ne_zero_table_ne_nil {db : DB} {x : Int} (hc : countId db x ≠ 0) :
    db.table ≠ [] := by
  intro hnil
  apply hc
  unfold countId
  rw [hnil]
  rfl

theorem pyStrip_colChoice (f : Col) : pyStrip (colChoice f) = colChoice f := by
  cases f <;> decide

/-- A valid id followed by a menu choice and a valid new value commits
exactly one update statement and breaks out of the loop. -/
theorem update_step_done (db : DB) (idStr vStr : String) (rest : List String)
    (x : Int) (f : Col)
    (hp : pyInt idStr = some x) (hc : countId db x ≠ 0)
    (hv : colValid f vStr = true) :
    update_step db (idStr :: colChoice f :: vStr :: rest)
      = .done (updateRow db x (colApply f vStr))
          ((msgUpdPrompt :: updMenu) ++ [colPrompt f, colOk f]) := by
  unfold update_step
  simp only [hp]
  rw [if_neg hc]
  change prependOut (msgUpdPrompt :: updMenu)
    (field_step db x (pyStrip (colChoice f)) (vStr :: rest)) = _
  rw [pyStrip_colChoice]
  simp only [colChoice]
  cases f with
  | bench =>
    simp only [colValid] at hv
    cases hpv : pyInt vStr with
    | none => rw [hpv] at hv; cases hv
    | some v =>
      rw [hpv] at hv
      have hv2 : ¬ v < 0 := by simpa using hv
      simp [field_step, prependOut, hpv, hv2]
      constructor
      · congr 1
        funext u
        simp [colApply, hpv]
      · simp [colOk]
  | iq =>
    simp only [colValid] at hv
    cases hpv : pyInt vStr with
    | none => rw [hpv] at hv; cases hv
    | some v =>
      rw [hpv] at hv
      have hv2 : ¬ v ≤ 0 := by simpa using hv
      simp [field_step, prependOut, hpv, hv2,
        show ("2" : String) ≠ "1" from by decide]
      constructor
      · congr 1
        funext u
        simp [colApply, hpv]
      · simp [colOk]
  | age =>
    simp only [colValid] at hv
    cases hpv : pyInt vStr with
    | none => rw [hpv] at hv; cases hv
    | some v =>
      rw [hpv] at hv
      have hv2 : ¬ v ≤ 0 := by simpa using hv
      simp [field_step, prependOut, hpv, hv2,
        show ("3" : String) ≠ "1" from by decide,
        show ("3" : String) ≠ "2" from by decide]
      constructor
      · congr 1
        funext u
        simp [colApply, hpv]
      · simp [colOk]
  | name =>
    simp only [colValid] at hv
    have hv2 : ¬ pyStrip vStr = "" := by simpa using hv
    simp [field_step, prependOut, hv2,
      show ("4" : String) ≠ "1" from by decide,
      show ("4" : String) ≠ "2" from by decide,
      show ("4" : String) ≠ "3" from by decide]
    constructor
    · congr 1
    · simp [colOk]

/-- C2: updating column `f` of the record with id `x` (any existing id, any
valid new value) maps exactly the rows with that id through the column's
`SET` transformation and leaves every other row untouched; the transformation
changes only column `f`, setting it to the entered value; the loop then ends,
so exactly one field is updated per invocation regardless of any further
pending input. -/
theorem update_user_frame (db : DB) (idStr vStr : String) (rest : List String)
    (x : Int) (f : Col)
    (hp : pyInt idStr = some x) (hc : countId db x ≠ 0)
    (hv : colValid f vStr = true) :
    (update_user false db (idStr :: colChoice f :: vStr :: rest)).1
      = { db with table := db.table.map (fun u =>
                     if (u.id : Int) == x then colApply f vStr u else u) } ∧
    (∀ u : User, sameExcept f u (colApply f vStr u) ∧ setsTo f vStr (colApply f vStr u)) ∧
    update_user false db (idStr :: colChoice f :: vStr :: rest)
      = update_user false db [idStr, colChoice f, vStr] := by
  have hne : db.table ≠ [] := countId_ne_zero_table_ne_nil hc
  have hempty : (read_db false db).isEmpty = false := by
    simp [read_db, List.isEmpty_iff, hne]
  have hstep := update_step_done db idStr vStr rest x f hp hc hv
  have hstep0 := update_step_done db idStr vStr [] x f hp hc hv
  refine ⟨?_, ?_, ?_⟩
  · unfold update_user
    rw [hempty]
    simp only [Bool.false_eq_true, if_false]
    rw [update_loop_eq, hstep]
    rfl
  · intro u
    cases f with
    | bench =>
      simp only [colValid] at hv
      cases hpv : pyInt vStr with
      | none => rw [hpv] at hv; cases hv
      | some v =>
        refine ⟨⟨?_, fun _ => ?_, fun _ => ?_, fun _ => ?_, fun hf => absurd rfl hf⟩, ?_⟩
          <;> simp [colApply, hpv, setsTo]
    | iq =>
      simp only [colValid] at hv
      cases hpv : pyInt vStr with
      | none => rw [hpv] at hv; cases hv
      | some v =>
        refine ⟨⟨?_, fun _ => ?_, fun _ => ?_, fun hf => absurd rfl hf, fun _ => ?_⟩, ?_⟩
          <;> simp [colApply, hpv, setsTo]
    | age =>
      simp only [colValid] at hv
      cases hpv : pyInt vStr with
      | none => rw [hpv] at hv; cases hv
      | some v =>
        refine ⟨⟨?_, fun _ => ?_, fun hf => absurd rfl hf, fun _ => ?_, fun _ => ?_⟩, ?_⟩
          <;> simp [colApply, hpv, setsTo]
    | name =>
      refine ⟨⟨rfl, fun hf => absurd rfl hf, fun _ => ?_, fun _ => ?_, fun _ => ?_⟩, ?_⟩
        <;> simp [colApply, setsTo]
  · unfold update_user
    rw [hempty]
    simp only [Bool.false_eq_true, if_false]
    rw [update_loop_eq, hstep, update_loop_eq, hstep0]

/-- C2 witness: updating the bench press of id 1 to 70 in a two-row table
remaps exactly that row. -/
theorem update_user_frame_witness :
    (update_user false ⟨[⟨1, "Ann_Lee", 30, 110, 60⟩, ⟨2, "Bo_Li", 25, 120, 80⟩], 3⟩
        ["1", colChoice Col.bench, "70"]).1
      = { table := [⟨1, "Ann_Lee", 30, 110, 60⟩, ⟨2, "Bo_Li", 25, 120, 80⟩].map (fun u =>
                     if (u.id : Int) == (1 : Int) then colApply Col.bench "70" u else u),
          nextId := 3 } :=
  (update_user_frame ⟨[⟨1, "Ann_Lee", 30, 110, 60⟩, ⟨2, "Bo_Li", 25, 120, 80⟩], 3⟩
    "1" "70" [] 1 Col.bench (by decide) (by decide) (by decide)).1

/-- A valid id, a menu choice, and an invalid new value print the column's
error message and `continue`: the loop retries with the database unchanged. -/
theorem update_step_invalid (db : DB) (idStr vStr : String) (rest : List String)
    (x : Int) (f : Col)
    (hp : pyInt idStr = some x) (hc : countId db x ≠ 0)
    (hv : colValid f vStr = false) :
    update_step db (idStr :: colChoice f :: vStr :: rest)
      = .retry ((msgUpdPrompt :: updMenu) ++ [colPrompt f, colErr f vStr]) rest := by
  unfold update_step
  simp only [hp]
  rw [if_neg hc]
  change prependOut (msgUpdPrompt :: updMenu)
    (field_step db x (pyStrip (colChoice f)) (vStr :: rest)) = _
  rw [pyStrip_colChoice]
  simp only [colChoice]
  cases f with
  | bench =>
    simp only [colValid] at hv
    cases hpv : pyInt vStr with
    | none => simp [field_step, prependOut, colErr, hpv]
    | some v =>
      rw [hpv] at hv
      have hv2 : v < 0 := by simpa using hv
      simp [field_step, prependOut, colErr, hpv, hv2]
  | iq =>
    simp only [colValid] at hv
    cases hpv : pyInt vStr with
    | none =>
      simp [field_step, prependOut, colErr, hpv,
        show ("2" : String) ≠ "1" from by decide]
    | some v =>
      rw [hpv] at hv
      have hv2 : v ≤ 0 := by simpa using hv
      simp [field_step, prependOut, colErr, hpv, hv2,
        show ("2" : String) ≠ "1" from by decide]
  | age =>
    simp only [colValid] at hv
    cases hpv : pyInt vStr with
    | none =>
      simp [field_step, prependOut, colErr, hpv,
        show ("3" : String) ≠ "1" from by decide,
        show ("3" : String) ≠ "2" from by decide]
    | some v =>
      rw [hpv] at hv
      have hv2 : v ≤ 0 := by simpa using hv
      simp [field_step, prependOut, colErr, hpv, hv2,
        show ("3" : String) ≠ "1" from by decide,
        show ("3" : String) ≠ "2" from by decide]
  | name =>
    simp only [colValid] at hv
    have hv2 : pyStrip vStr = "" := by simpa using hv
    simp [field_step, prependOut, colErr, hv2,
      show ("4" : String) ≠ "1" from by decide,
      show ("4" : String) ≠ "2" from by decide,
      show ("4" : String) ≠ "3" from by decide]

/-- C4 (amended): an invalid new value (out of range, empty name, or
non-numeric) makes the update loop `continue` from the very top — the next
prompt is the id prompt, not the field-selection menu — while a non-numeric
id likewise re-prompts the id; in both cases the loop retries rather than
aborting and the continuation runs on the unchanged table. -/
theorem update_user_invalid_reprompts_id :
    (∀ (db : DB) (idStr vStr : String) (rest : List String) (x : Int) (f : Col),
       pyInt idStr = some x → countId db x ≠ 0 → colValid f vStr = false →
       update_loop db (idStr :: colChoice f :: vStr :: rest)
         = ((update_loop db rest).1,
            ((msgUpdPrompt :: updMenu) ++ [colPrompt f, colErr f vStr])
              ++ (update_loop db rest).2)) ∧
    (∀ (db : DB) (idStr : String) (rest : List String),
       pyInt idStr = none →
       update_loop db (idStr :: rest)
         = ((update_loop db rest).1,
            [msgUpdPrompt, msgBadId] ++ (update_loop db rest).2)) ∧
    (∀ (db : DB) (inputs : List String),
       (update_loop db inputs).2.head? = some msgUpdPrompt) := by
  refine ⟨?_, ?_, update_loop_head⟩
  · intro db idStr vStr rest x f hp hc hv
    rw [update_loop_eq, update_step_invalid db idStr vStr rest x f hp hc hv]
  · intro db idStr rest hp
    have hstep : update_step db (idStr :: rest) = .retry [msgUpdPrompt, msgBadId] rest := by
      unfold update_step
      simp only [hp]
    rw [update_loop_eq, hstep]

/-- C4 (amended) witness: a negative bench press for existing id 1 makes the
loop retry from the id prompt on an unchanged table. -/
theorem update_user_invalid_reprompts_id_witness :
    update_loop ⟨[⟨1, "Ann_Lee", 30, 110, 60⟩], 2⟩ ["1", colChoice Col.bench, "-5"]
      = ((update_loop ⟨[⟨1, "Ann_Lee", 30, 110, 60⟩], 2⟩ []).1,
         ((msgUpdPrompt :: updMenu) ++ [colPrompt Col.bench, colErr Col.bench "-5"])
           ++ (update_loop ⟨[⟨1, "Ann_Lee", 30, 110, 60⟩], 2⟩ []).2) :=
  update_user_invalid_reprompts_id.1 ⟨[⟨1, "Ann_Lee", 30, 110, 60⟩], 2⟩
    "1" "-5" [] 1 Col.bench (by decide) (by decide) (by decide)

/-- C4 counterexample: after the invalid bench press `-5` for id 1, the next
prompt in the console trace is the id prompt, not the field-selection menu,
and the subsequent entries `2` and `30` are consumed as (unmatched) ids, so
no field is updated — refuting the claim that the retry resumes at the
field-selection menu (under which `2` would select IQ and set it to 30). -/
theorem update_user_menu_reprompt_counterexample :
    (update_user false ⟨[⟨1, "Ann_Lee", 30, 110, 60⟩], 2⟩
        ["1", "1", "-5", "2", "30"]).1 = ⟨[⟨1, "Ann_Lee", 30, 110, 60⟩], 2⟩ ∧
    (update_user false ⟨[⟨1, "Ann_Lee", 30, 110, 60⟩], 2⟩
        ["1", "1", "-5", "2", "30"]).2.get? 9 = some msgBenchNeg ∧
    (update_user false ⟨[⟨1, "Ann_Lee", 30, 110, 60⟩], 2⟩
        ["1", "1", "-5", "2", "30"]).2.get? 10 = some msgUpdPrompt ∧
    msgUpdPrompt ≠ "What do you want to update?" := by
  have h1 : update_step ⟨[⟨1, "Ann_Lee", 30, 110, 60⟩], 2⟩ ["1", "1", "-5", "2", "30"]
      = .retry ((msgUpdPrompt :: updMenu) ++ [colPrompt Col.bench, msgBenchNeg])
          ["2", "30"] := by decide
  have h2 : update_step ⟨[⟨1, "Ann_Lee", 30, 110, 60⟩], 2⟩ ["2", "30"]
      = .retry [msgUpdPrompt, msgNoUser] ["30"] := by decide
  have h3 : update_step ⟨[⟨1, "Ann_Lee", 30, 110, 60⟩], 2⟩ ["30"]
      = .retry [msgUpdPrompt, msgNoUser] [] := by decide
  have h4 : update_step ⟨[⟨1, "Ann_Lee", 30, 110, 60⟩], 2⟩ []
      = .halt [msgUpdPrompt, msgUpdErr] := by decide
  have hl0 : update_loop ⟨[⟨1, "Ann_Lee", 30, 110, 60⟩], 2⟩ []
      = (⟨[⟨1, "Ann_Lee", 30, 110, 60⟩], 2⟩, [msgUpdPrompt, msgUpdErr]) :=
    update_loop_halt h4
  have hl1 : update_loop ⟨[⟨1, "Ann_Lee", 30, 110, 60⟩], 2⟩ ["30"]
      = (⟨[⟨1, "Ann_Lee", 30, 110, 60⟩], 2⟩,
         [msgUpdPrompt, msgNoUser, msgUpdPrompt, msgUpdErr]) := by
    rw [update_loop_retry h3, hl0]
    rfl
  have hl2 : update_loop ⟨[⟨1, "Ann_Lee", 30, 110, 60⟩], 2⟩ ["2", "30"]
      = (⟨[⟨1, "Ann_Lee", 30, 110, 60⟩], 2⟩,
         [msgUpdPrompt, msgNoUser, msgUpdPrompt, msgNoUser, msgUpdPrompt, msgUpdErr]) := by
    rw [update_loop_retry h2, hl1]
    rfl
  have hl3 : update_loop ⟨[⟨1, "Ann_Lee", 30, 110, 60⟩], 2⟩ ["1", "1", "-5", "2", "30"]
      = (⟨[⟨1, "Ann_Lee", 30, 110, 60⟩], 2⟩,
         (msgUpdPrompt :: updMenu) ++ [colPrompt Col.bench, msgBenchNeg,
           msgUpdPrompt, msgNoUser, msgUpdPrompt, msgNoUser, msgUpdPrompt, msgUpdErr]) := by
    rw [update_loop_retry h1, hl2]
    simp
  have hfull : update_user false ⟨[⟨1, "Ann_Lee", 30, 110, 60⟩], 2⟩
      ["1", "1", "-5", "2", "30"]
      = (⟨[⟨1, "Ann_Lee", 30, 110, 60⟩], 2⟩,
         msgListing :: (msgUpdPrompt :: updMenu) ++ [colPrompt Col.bench, msgBenchNeg,
           msgUpdPrompt, msgNoUser, msgUpdPrompt, msgNoUser, msgUpdPrompt, msgUpdErr]) := by
    unfold update_user
    rw [hl3]
    rfl
  rw [hfull]
  refine ⟨rfl, ?_, ?_, by decide⟩
  · simp [updMenu]
  · simp [updMenu]

/-! ## Read-all, schema init, statistics -/

/-- C5: read-all returns the full record set in storage (insertion) order on
success, and the empty result both for an empty table and for any read
failure; the failure is only reported, never propagated (the function is
total and always returns a record list). -/
theorem read_db_spec :
    (∀ db : DB, read_db false db = db.table) ∧
    (∀ (fail : Bool) (n : Nat), read_db fail ⟨[], n⟩ = []) ∧
    (∀ db : DB, read_db true db = []) := by
  refine ⟨fun db => rfl, ?_, fun db => rfl⟩
  intro fail n
  cases fail <;> rfl

/-- C8: `CREATE TABLE IF NOT EXISTS` is idempotent — running schema-ensure a
second time gives exactly the state after the first run, and an existing
table with its rows is left completely untouched (never duplicated, dropped,
or emptied). -/
theorem init_database_idempotent :
    (∀ s : Option DB, init_database (init_database s) = init_database s) ∧
    (∀ db : DB, init_database (some db) = some db) := by
  constructor
  · intro s
    cases s <;> rfl
  · intro db
    rfl

/-- The report printed by the statistics option (means as exact rationals;
the `:.1f` one-decimal console formatting is display-only and abstracted). -/
structure Stats where
  count : Nat
  meanAge : Rat
  meanIq : Rat
  meanBench : Rat
  maxBench : Int
  minBench : Int
  deriving Repr, DecidableEq

/-- Embeds `show_statistics`: on an empty record set, report "no data" (`none`) and
compute nothing; otherwise report the row count, the mean age, IQ and bench
press, and the maximum and minimum bench press (pandas `mean`/`max`/`min`
over the respective columns). -/
def show_statistics (rows : List User) : Option Stats :=
  match rows with
  | [] => none
  | r :: rs =>
    some { count := (r :: rs).length,
           meanAge := (((r :: rs).map User.age).sum : Rat) / ((r :: rs).length : Rat),
           meanIq := (((r :: rs).map User.iq).sum : Rat) / ((r :: rs).length : Rat),
           meanBench := (((r :: rs).map User.bench_press).sum : Rat) / ((r :: rs).length : Rat),
           maxBench := rs.foldl (fun m u => max m u.bench_press) r.bench_press,
           minBench := rs.foldl (fun m u => min m u.bench_press) r.bench_press }

theorem foldl_max_spec (l : List Int) :
    ∀ a : Int, (l.foldl max a = a ∨ l.foldl max a ∈ l) ∧
      a ≤ l.foldl max a ∧ ∀ b ∈ l, b ≤ l.foldl max a := by
  induction l with
  | nil => simp
  | cons x xs ih =>
    intro a
    obtain ⟨hmem, hle, hall⟩ := ih (max a x)
    refine ⟨?_, ?_, ?_⟩
    · rcases hmem with h | h
      · rcases max_choice a x with hc | hc
        · left
          rw [List.foldl_cons, h, hc]
        · right
          rw [List.foldl_cons, h, hc]
          exact List.mem_cons_self x xs
      · right
        exact List.mem_cons_of_mem x h
    · exact le_trans (le_max_left a x) hle
    · intro b hb
      rcases List.mem_cons.mp hb with hb | hb
      · subst hb
        exact le_trans (le_max_right a b) hle
      · exact hall b hb

theorem foldl_min_spec (l : List Int) :
    ∀ a : Int, (l.foldl min a = a ∨ l.foldl min a ∈ l) ∧
      l.foldl min a ≤ a ∧ ∀ b ∈ l, l.foldl min a ≤ b := by
  induction l with
  | nil => simp
  | cons x xs ih =>
    intro a
    obtain ⟨hmem, hle, hall⟩ := ih (min a x)
    refine ⟨?_, ?_, ?_⟩
    · rcases hmem with h | h
      · rcases min_choice a x with hc | hc
        · left
          rw [List.foldl_cons, h, hc]
        · right
          rw [List.foldl_cons, h, hc]
          exact List.mem_cons_self x xs
      · right
        exact List.mem_cons_of_mem x h
    · exact le_trans hle (min_le_left a x)
    · intro b hb
      rcases List.mem_cons.mp hb with hb | hb
      · subst hb
        exact le_trans hle (min_le_right a b)
      · exact hall b hb

/-- C6: statistics on the empty set report "no data" and compute nothing; on
a non-empty set they report the record count, the mean age / IQ / bench press
(characterised by `mean * count = column sum`), and the maximum and minimum
bench press (an attained bound of the column); on the singleton set with
iq 100 and bench 50 the report is count 1, means equal to the record's
values, and max = min = 50. -/
theorem show_statistics_spec :
    show_statistics [] = none ∧
    (∀ rows : List User, rows ≠ [] → ∃ s : Stats,
       show_statistics rows = some s ∧
       s.count = rows.length ∧
       s.meanAge * (rows.length : Rat) = ((rows.map User.age).sum : Rat) ∧
       s.meanIq * (rows.length : Rat) = ((rows.map User.iq).sum : Rat) ∧
       s.meanBench * (rows.length : Rat) = ((rows.map User.bench_press).sum : Rat) ∧
       s.maxBench ∈ rows.map User.bench_press ∧
       (∀ b ∈ rows.map User.bench_press, b ≤ s.maxBench) ∧
       s.minBench ∈ rows.map User.bench_press ∧
       (∀ b ∈ rows.map User.bench_press, s.minBench ≤ b)) ∧
    show_statistics [⟨1, "Ann_Lee", 30, 100, 50⟩]
      = some ⟨1, (30 : Rat), (100 : Rat), (50 : Rat), 50, 50⟩ := by
  refine ⟨rfl, ?_, ?_⟩
  case refine_2 =>
    simp only [show_statistics, List.map_cons, List.map_nil, List.sum_cons, List.sum_nil,
      List.length_cons, List.length_nil, List.foldl, Option.some.injEq, Stats.mk.injEq]
    norm_num
  intro rows hne
  match rows with
  | [] => exact absurd rfl hne
  | r :: rs =>
    refine ⟨_, rfl, rfl, ?_, ?_, ?_, ?_, ?_, ?_, ?_⟩
    · have hlen : (((r :: rs).length : Nat) : Rat) ≠ 0 := by
        simp only [List.length_cons]
        push_cast
        positivity
      exact div_mul_cancel₀ _ hlen
    · have hlen : (((r :: rs).length : Nat) : Rat) ≠ 0 := by
        simp only [List.length_cons]
        push_cast
        positivity
      exact div_mul_cancel₀ _ hlen
    · have hlen : (((r :: rs).length : Nat) : Rat) ≠ 0 := by
        simp only [List.length_cons]
        push_cast
        positivity
      exact div_mul_cancel₀ _ hlen
    · have h := (foldl_max_spec (rs.map User.bench_press) r.bench_press).1
      rw [List.foldl_map] at h
      rcases h with h | h
      · rw [h]
        simp
      · simp only [List.map_cons]
        exact List.mem_cons_of_mem _ h
    · intro b hb
      have h := (foldl_max_spec (rs.map User.bench_press) r.bench_press).2
      rw [List.foldl_map] at h
      rcases List.mem_cons.mp hb with hb | hb
      · subst hb
        exact h.1
      · exact h.2 b hb
    · have h := (foldl_min_spec (rs.map User.bench_press) r.bench_press).1
      rw [List.foldl_map] at h
      rcases h with h | h
      · rw [h]
        simp
      · simp only [List.map_cons]
        exact List.mem_cons_of_mem _ h
    · intro b hb
      have h := (foldl_min_spec (rs.map User.bench_press) r.bench_press).2
      rw [List.foldl_map] at h
      rcases List.mem_cons.mp hb with hb | hb
      · subst hb
        exact h.1
      · exact h.2 b hb

/-- C6 witness: the non-empty branch applied to a concrete two-row table. -/
theorem show_statistics_spec_witness :
    ∃ s : Stats,
      show_statistics [⟨1, "Ann_Lee", 30, 100, 50⟩, ⟨2, "Bo_Li", 20, 120, 70⟩] = some s ∧
      s.count = 2 ∧
      s.meanAge * ((2 : Nat) : Rat) = ((50 : Int) : Rat) ∧
      s.meanIq * ((2 : Nat) : Rat) = ((220 : Int) : Rat) ∧
      s.meanBench * ((2 : Nat) : Rat) = ((120 : Int) : Rat) ∧
      s.maxBench ∈ ([50, 70] : List Int) ∧
      (∀ b ∈ ([50, 70] : List Int), b ≤ s.maxBench) ∧
      s.minBench ∈ ([50, 70] : List Int) ∧
      (∀ b ∈ ([50, 70] : List Int), s.minBench ≤ b) :=
  show_statistics_spec.2.1 [⟨1, "Ann_Lee", 30, 100, 50⟩, ⟨2, "Bo_Li", 20, 120, 70⟩]
    (by decide)

/-! ## Scatter plot: unique filename and save prompt -/

/-- Digits of `n` (most significant first), empty for 0; the fuel argument
(any bound ≥ `n`) keeps the recursion structural. -/
def natStrAux : Nat → Nat → List Char
  | 0, _ => []
  | fuel + 1, n =>
    if n = 0 then [] else natStrAux fuel (n / 10) ++ [Nat.digitChar (n % 10)]

/-- Python `str(n)` for a natural number: its decimal rendering. -/
def natStr (n : Nat) : String :=
  if n = 0 then "0" else String.mk (natStrAux n n)

theorem natStrAux_fuel (n : Nat) :
    ∀ f1 f2 : Nat, n ≤ f1 → n ≤ f2 → natStrAux f1 n = natStrAux f2 n := by
  induction n using Nat.strong_induction_on with
  | _ n ih =>
    intro f1 f2 h1 h2
    by_cases hn : n = 0
    · subst hn
      cases f1 <;> cases f2 <;> simp [natStrAux]
    · obtain ⟨g1, rfl⟩ : ∃ g, f1 = g + 1 := ⟨f1 - 1, by omega⟩
      obtain ⟨g2, rfl⟩ : ∃ g, f2 = g + 1 := ⟨f2 - 1, by omega⟩
      have hdiv : n / 10 < n := Nat.div_lt_self (Nat.pos_of_ne_zero hn) (by norm_num)
      simp only [natStrAux, if_neg hn]
      rw [ih (n / 10) hdiv g1 g2 (by omega) (by omega)]

theorem natStrAux_ne_nil {f n : Nat} (hn : n ≠ 0) (hf : n ≤ f) :
    natStrAux f n ≠ [] := by
  obtain ⟨g, rfl⟩ : ∃ g, f = g + 1 := ⟨f - 1, by omega⟩
  simp [natStrAux, hn]

theorem append_singleton_inj {α : Type} {l1 l2 : List α} {a b : α}
    (h : l1 ++ [a] = l2 ++ [b]) : l1 = l2 ∧ a = b := by
  have hr := congrArg List.reverse h
  simp only [List.reverse_append, List.reverse_singleton, List.singleton_append] at hr
  injection hr with h1 h2
  refine ⟨?_, h1⟩
  have := congrArg List.reverse h2
  simpa using this

theorem natStrAux_unfold {n : Nat} (hn : n ≠ 0) (k : Nat) (hk : n = k + 1) :
    natStrAux n n = natStrAux k (n / 10) ++ [Nat.digitChar (n % 10)] := by
  subst hk
  simp [natStrAux]

theorem digitChar_inj : ∀ a < 10, ∀ b < 10, Nat.digitChar a = Nat.digitChar b → a = b := by
  decide

theorem natStr_inj :
    ∀ m n : Nat, m ≠ 0 → n ≠ 0 → natStr m = natStr n → m = n := by
  intro m
  induction m using Nat.strong_induction_on with
  | _ m ih =>
    intro n hm hn h
    unfold natStr at h
    rw [if_neg hm, if_neg hn] at h
    have hl : natStrAux m m = natStrAux n n := congrArg String.data h
    obtain ⟨km, hkm⟩ : ∃ k, m = k + 1 := ⟨m - 1, by omega⟩
    obtain ⟨kn, hkn⟩ : ∃ k, n = k + 1 := ⟨n - 1, by omega⟩
    rw [natStrAux_unfold hm km hkm, natStrAux_unfold hn kn hkn] at hl
    obtain ⟨hpre, hdig⟩ := append_singleton_inj hl
    have hmod : m % 10 = n % 10 :=
      digitChar_inj (m % 10) (Nat.mod_lt m (by norm_num)) (n % 10)
        (Nat.mod_lt n (by norm_num)) hdig
    have hmdiv : m / 10 < m := Nat.div_lt_self (Nat.pos_of_ne_zero hm) (by norm_num)
    have hndiv : n / 10 < n := Nat.div_lt_self (Nat.pos_of_ne_zero hn) (by norm_num)
    have hpre2 : natStrAux (m / 10) (m / 10) = natStrAux (n / 10) (n / 10) := by
      rw [natStrAux_fuel (m / 10) (m / 10) km le_rfl (by omega),
          natStrAux_fuel (n / 10) (n / 10) kn le_rfl (by omega)]
      exact hpre
    by_cases hm0 : m / 10 = 0
    · by_cases hn0 : n / 10 = 0
      · omega
      · rw [hm0] at hpre2
        exact absurd hpre2.symm (natStrAux_ne_nil hn0 le_rfl)
    · by_cases hn0 : n / 10 = 0
      · rw [hn0] at hpre2
        exact absurd hpre2 (natStrAux_ne_nil hm0 le_rfl)
      · have hdiv : m / 10 = n / 10 := by
          apply ih (m / 10) hmdiv (n / 10) hm0 hn0
          unfold natStr
          rw [if_neg hm0, if_neg hn0]
          exact congrArg String.mk hpre2
        omega

/-- The candidate filename for a given counter value. -/
def scatterName (base ext : String) (c : Nat) : String :=
  base ++ natStr c ++ ext

theorem scatterName_inj (base ext : String) {a b : Nat} (ha : a ≠ 0) (hb : b ≠ 0)
    (h : scatterName base ext a = scatterName base ext b) : a = b := by
  apply natStr_inj a b ha hb
  unfold scatterName at h
  have hd := congrArg String.data h
  simp only [String.data_append] at hd
  have h1 := List.append_cancel_right hd
  have h2 := List.append_cancel_left h1
  exact String.ext h2

/-- The probing loop inside `get_unique_filename`: try `scatter{c}.png` for
`c = counter, counter+1, ...` until a name not on disk is found.  The fuel
bound models the unbounded `while True`; `none` would mean fuel ran out, and
is proved unreachable for fuel `files.length + 1`. -/
def get_unique_filename_aux (files : List String) (base ext : String) :
    Nat → Nat → Option String
  | _, 0 => none
  | counter, fuel + 1 =>
    if scatterName base ext counter ∈ files then
      get_unique_filename_aux files base ext (counter + 1) fuel
    else some (scatterName base ext counter)

/-- Embeds `get_unique_filename`: return the base name if unused, else the first
`{base}{counter}{ext}` with the counter starting at 2 that names no existing
file. -/
def get_unique_filename (files : List String) (base ext : String) : Option String :=
  if (base ++ ext) ∈ files then
    get_unique_filename_aux files base ext 2 (files.length + 1)
  else some (base ++ ext)

theorem get_unique_filename_aux_correct (files : List String) (base ext : String) :
    ∀ (fuel counter : Nat),
      (∃ k, k < fuel ∧ scatterName base ext (counter + k) ∉ files) →
      ∃ k, (∀ j, j < k → scatterName base ext (counter + j) ∈ files) ∧
        scatterName base ext (counter + k) ∉ files ∧
        get_unique_filename_aux files base ext counter fuel
          = some (scatterName base ext (counter + k)) := by
  intro fuel
  induction fuel with
  | zero =>
    intro counter h
    obtain ⟨k, hk, _⟩ := h
    omega
  | succ fuel ih =>
    intro counter h
    by_cases hc : scatterName base ext counter ∈ files
    · obtain ⟨k, hk, hfree⟩ := h
      have hk0 : k ≠ 0 := by
        intro h0
        rw [h0] at hfree
        simp at hfree
        exact hfree hc
      obtain ⟨k2, rfl⟩ : ∃ k2, k = k2 + 1 := ⟨k - 1, by omega⟩
      have hprev : ∃ k, k < fuel ∧ scatterName base ext (counter + 1 + k) ∉ files := by
        refine ⟨k2, by omega, ?_⟩
        have : counter + 1 + k2 = counter + (k2 + 1) := by omega
        rw [this]
        exact hfree
      obtain ⟨k3, hall, hfree3, heq⟩ := ih (counter + 1) hprev
      refine ⟨k3 + 1, ?_, ?_, ?_⟩
      · intro j hj
        cases j with
        | zero => simpa using hc
        | succ j2 =>
          have : counter + (j2 + 1) = counter + 1 + j2 := by omega
          rw [this]
          exact hall j2 (by omega)
      · have : counter + (k3 + 1) = counter + 1 + k3 := by omega
        rw [this]
        exact hfree3
      · unfold get_unique_filename_aux
        rw [if_pos hc, heq]
        have : counter + 1 + k3 = counter + (k3 + 1) := by omega
        rw [this]
    · refine ⟨0, by omega, by simpa using hc, ?_⟩
      unfold get_unique_filename_aux
      rw [if_neg hc]
      simp

theorem exists_free_name (files : List String) (base ext : String) :
    ∃ k, k ≤ files.length ∧ scatterName base ext (2 + k) ∉ files := by
  by_contra hcon
  push_neg at hcon
  have hinj : Function.Injective (fun k : Nat => scatterName base ext (2 + k)) := by
    intro k1 k2 h
    have := scatterName_inj base ext (by omega : 2 + k1 ≠ 0) (by omega : 2 + k2 ≠ 0) h
    omega
  have hnd : ((List.range (files.length + 1)).map
      (fun k => scatterName base ext (2 + k))).Nodup :=
    (List.nodup_range (files.length + 1)).map hinj
  have hsub : ((List.range (files.length + 1)).map
      (fun k => scatterName base ext (2 + k))).toFinset ⊆ files.toFinset := by
    intro a ha
    rw [List.mem_toFinset] at ha ⊢
    obtain ⟨k, hk, rfl⟩ := List.mem_map.mp ha
    exact hcon k (by simpa using Nat.lt_succ_iff.mp (List.mem_range.mp hk))
  have h1 := List.toFinset_card_of_nodup hnd
  have h2 := Finset.card_le_card hsub
  have h3 := List.toFinset_card_le files
  simp only [List.length_map, List.length_range] at h1
  omega

/-- C7: for every set of existing files, the chooser returns `base ++ ext`
when that name is unused, and otherwise the first `{base}{n}{ext}` with the
counter starting at 2 whose name is unused (every counter from 2 up to it
names an existing file); in particular with `scatter.png` present the next
save gets `scatter2.png`, and with both present `scatter3.png`. -/
theorem get_unique_filename_spec :
    (∀ (files : List String) (base ext : String), (base ++ ext) ∉ files →
       get_unique_filename files base ext = some (base ++ ext)) ∧
    (∀ (files : List String) (base ext : String), (base ++ ext) ∈ files →
       ∃ n, 2 ≤ n ∧
         get_unique_filename files base ext = some (scatterName base ext n) ∧
         scatterName base ext n ∉ files ∧
         ∀ m, 2 ≤ m → m < n → scatterName base ext m ∈ files) ∧
    get_unique_filename ["scatter.png"] "scatter" ".png" = some "scatter2.png" ∧
    get_unique_filename ["scatter.png", "scatter2.png"] "scatter" ".png"
      = some "scatter3.png" ∧
    get_unique_filename [] "scatter" ".png" = some "scatter.png" := by
  refine ⟨?_, ?_, by decide, by decide, by decide⟩
  · intro files base ext hfree
    unfold get_unique_filename
    rw [if_neg hfree]
  · intro files base ext hbase
    unfold get_unique_filename
    rw [if_pos hbase]
    obtain ⟨k, hk, hfree⟩ := exists_free_name files base ext
    obtain ⟨k0, hall, hfree0, heq⟩ :=
      get_unique_filename_aux_correct files base ext (files.length + 1) 2
        ⟨k, by omega, hfree⟩
    refine ⟨2 + k0, by omega, heq, hfree0, ?_⟩
    intro m hm2 hmlt
    have : m = 2 + (m - 2) := by omega
    rw [this]
    exact hall (m - 2) (by omega)

/-- C7 witness: with only `scatter.png` on disk the probe returns the first
free counter name, `scatter2.png`. -/
theorem get_unique_filename_spec_witness :
    ∃ n, 2 ≤ n ∧
      get_unique_filename ["scatter.png"] "scatter" ".png"
        = some (scatterName "scatter" ".png" n) ∧
      scatterName "scatter" ".png" n ∉ ["scatter.png"] ∧
      ∀ m, 2 ≤ m → m < n → scatterName "scatter" ".png" m ∈ ["scatter.png"] :=
  get_unique_filename_spec.2.1 ["scatter.png"] "scatter" ".png" (by decide)

/-- The probe always finds a name: the filesystem is finite and the candidate
names are pairwise distinct. -/
theorem get_unique_filename_isSome (files : List String) (base ext : String) :
    get_unique_filename files base ext ≠ none := by
  unfold get_unique_filename
  by_cases hbase : (base ++ ext) ∈ files
  · rw [if_pos hbase]
    obtain ⟨k, hk, hfree⟩ := exists_free_name files base ext
    obtain ⟨k0, _, _, heq⟩ :=
      get_unique_filename_aux_correct files base ext (files.length + 1) 2
        ⟨k, by omega, hfree⟩
    rw [heq]
    simp
  · rw [if_neg hbase]
    simp

/-- Observable effect of the scatter-plot option: whether the plot window is
shown and which file, if any, the figure is written to. -/
structure PlotEffect where
  displayed : Bool
  savedTo : Option String
  deriving Repr, DecidableEq

/-- Embeds `draw_scatter`: with no rows, report and return without plotting.
Otherwise build the plot, ask `Do you want to save the scatter? (y/n): `,
save to a collision-free filename exactly when the stripped, lowercased
answer is `y`, and finally show the plot. -/
def draw_scatter (fail : Bool) (db : DB) (files : List String) (ans : String) :
    PlotEffect :=
  if (read_db fail db).isEmpty then ⟨false, none⟩
  else if pyLower (pyStrip ans) = "y" then
    ⟨true, get_unique_filename files "scatter" ".png"⟩
  else ⟨true, none⟩

/-- C9: with data present, the figure is written to a file exactly when the
operator's answer — stripped and lowercased — is the single character `y`;
any other answer (`yes` included) skips the save; the plot is displayed
afterwards in every case. -/
theorem draw_scatter_save_iff (db : DB) (files : List String) (ans : String)
    (hne : db.table ≠ []) :
    ((draw_scatter false db files ans).savedTo ≠ none
        ↔ pyLower (pyStrip ans) = "y") ∧
    (draw_scatter false db files ans).displayed = true ∧
    (draw_scatter false db files "yes").savedTo = none ∧
    pyLower (pyStrip " Y ") = "y" := by
  have hempty : (read_db false db).isEmpty = false := by
    simp [read_db, List.isEmpty_iff, hne]
  unfold draw_scatter
  rw [hempty]
  simp only [Bool.false_eq_true, if_false]
  refine ⟨?_, ?_, ?_, by decide⟩
  · by_cases hy : pyLower (pyStrip ans) = "y"
    · rw [if_pos hy]
      simpa [hy] using get_unique_filename_isSome files "scatter" ".png"
    · rw [if_neg hy]
      simpa using hy
  · by_cases hy : pyLower (pyStrip ans) = "y"
    · rw [if_pos hy]
    · rw [if_neg hy]
  · rw [if_neg (by decide : ¬ pyLower (pyStrip "yes") = "y")]

/-- C9 witness: on a one-row table, answering `y` saves and answering `yes`
does not, and the plot is shown. -/
theorem draw_scatter_save_iff_witness :
    (draw_scatter false ⟨[⟨1, "Ann_Lee", 30, 110, 60⟩], 2⟩ [] "y").savedTo ≠ none ∧
    (draw_scatter false ⟨[⟨1, "Ann_Lee", 30, 110, 60⟩], 2⟩ [] "yes").savedTo = none :=
  ⟨(draw_scatter_save_iff ⟨[⟨1, "Ann_Lee", 30, 110, 60⟩], 2⟩ [] "y"
      (by decide)).1.mpr (by decide),
   (draw_scatter_save_iff ⟨[⟨1, "Ann_Lee", 30, 110, 60⟩], 2⟩ [] "irrelevant"
      (by decide)).2.2.1⟩
